import Mathlib

/-!
Verification development for the `rswc` word-count utility
(source: `src/counter.rs` together with the wiring in `src/main.rs`).

The embedding below translates the streaming counting engine
(`count_reader`), the per-path dispatch (`process_files` / `count_file`)
and the rendering layer (`print_files_results` / `print_stdin_results`)
into executable Lean definitions.  Bytes are modelled as `Nat` values,
byte streams as `List Nat`, and one `read` call of the reader loop as one
chunk in a `List` of chunks.  I/O failures are modelled with `Except`:
the filesystem is an oracle mapping a path to either an open error or a
list of read results, each read result being either a chunk of bytes or
a mid-read error.  The output sink is modelled as the list of lines the
renderer writes, kept in a structured form (`OutLine`) together with the
exact textual formatting.
-/

namespace Rswc

/-- Mirrors `struct Counts` of `counter.rs`: the four counters. -/
structure Counts where
  lines : Nat
  words : Nat
  bytes : Nat
  chars : Nat
deriving DecidableEq, Repr

/-- Mirrors `struct Flags` of `counter.rs`: which counts are enabled. -/
structure Flags where
  lines : Bool
  words : Bool
  bytes : Bool
  chars : Bool
deriving DecidableEq, Repr

/-- Mirrors `const MAX_WIDTH: usize = 7` of `counter.rs`. -/
def MAX_WIDTH : Nat := 7

/-- Rust's `u8::is_ascii_whitespace`: space, horizontal tab, line feed,
form feed and carriage return (U+0020, U+0009, U+000A, U+000C, U+000D).
Note this set does not contain the vertical tab 0x0B. -/
def isAsciiWhitespace (b : Nat) : Bool :=
  b = 32 || b = 9 || b = 10 || b = 12 || b = 13

/-- The scanner state of the reader loop: the accumulated counts plus the
`in_word` boolean carried across bytes and across chunks. -/
structure ScanState where
  counts : Counts
  inWord : Bool
deriving DecidableEq, Repr

/-- The body of the inner `while i < n` loop of `count_reader` for one
byte `b`: bump `lines` on a newline byte, then update the word state:
whitespace clears `in_word`; a non-whitespace byte with `in_word` clear
bumps `words` and sets `in_word`. -/
def scanByte (s : ScanState) (b : Nat) : ScanState :=
  let c := s.counts
  let c := if b = 10 then { c with lines := c.lines + 1 } else c
  if isAsciiWhitespace b then
    { counts := c, inWord := false }
  else if !s.inWord then
    { counts := { c with words := c.words + 1 }, inWord := true }
  else
    { counts := c, inWord := s.inWord }

/-- Whether `b` is a UTF-8 continuation byte (`0x80..=0xBF`). -/
def isUtf8Cont (b : Nat) : Bool :=
  128 ≤ b && b ≤ 191

/-- Strict UTF-8 validation and scalar-value count, following the
validity rules enforced by Rust's `std::str::from_utf8` (no overlong
forms, no surrogates, nothing above U+10FFFF): `some k` when the whole
byte list is valid UTF-8 encoding `k` scalar values, `none` otherwise. -/
def utf8CharCount : List Nat → Option Nat
  | [] => some 0
  | b :: rest =>
    if b ≤ 127 then
      (utf8CharCount rest).map (· + 1)
    else if 194 ≤ b && b ≤ 223 then
      match rest with
      | b1 :: rest1 =>
        if isUtf8Cont b1 then (utf8CharCount rest1).map (· + 1) else none
      | [] => none
    else if 224 ≤ b && b ≤ 239 then
      match rest with
      | b1 :: b2 :: rest2 =>
        let okB1 :=
          if b = 224 then 160 ≤ b1 && b1 ≤ 191
          else if b = 237 then 128 ≤ b1 && b1 ≤ 159
          else isUtf8Cont b1
        if okB1 && isUtf8Cont b2 then
          (utf8CharCount rest2).map (· + 1)
        else none
      | _ => none
    else if 240 ≤ b && b ≤ 244 then
      match rest with
      | b1 :: b2 :: b3 :: rest3 =>
        let okB1 :=
          if b = 240 then 144 ≤ b1 && b1 ≤ 191
          else if b = 244 then 128 ≤ b1 && b1 ≤ 143
          else isUtf8Cont b1
        if okB1 && isUtf8Cont b2 && isUtf8Cont b3 then
          (utf8CharCount rest3).map (· + 1)
        else none
      | _ => none
    else none

/-- Mirrors `std::str::from_utf8(chunk).unwrap_or_default().chars().count()`:
the number of scalar values when the chunk is valid UTF-8, `0` (the char
count of the default empty string) otherwise. -/
def chunkChars (chunk : List Nat) : Nat :=
  (utf8CharCount chunk).getD 0

/-- One iteration of the reader loop of `count_reader` on a chunk of `n`
bytes: `counts.bytes += n`, the byte-by-byte scan, and, when the chars
flag is set, the per-chunk UTF-8 decode added to `counts.chars`. -/
def countChunk (flags : Flags) (s : ScanState) (chunk : List Nat) : ScanState :=
  let s1 : ScanState :=
    { s with counts := { s.counts with bytes := s.counts.bytes + chunk.length } }
  let s2 := chunk.foldl scanByte s1
  if flags.chars then
    { s2 with counts := { s2.counts with chars := s2.counts.chars + chunkChars chunk } }
  else
    s2

/-- The all-zero initial state of `count_reader` (`in_word = false`). -/
def initState : ScanState :=
  { counts := { lines := 0, words := 0, bytes := 0, chars := 0 }, inWord := false }

/-- Runs `count_reader` on a stream delivered as a list of successful reads
(chunks); the loop ends at the zero-length read, i.e. at the end of the
list. -/
def count_reader (flags : Flags) (chunks : List (List Nat)) : Counts :=
  (chunks.foldl (countChunk flags) initState).counts

/-- One `read` call of the underlying source: either a chunk of bytes or
an I/O error carrying the OS error message. -/
abbrev ReadResult := Except String (List Nat)

/-- The fallible reader loop: the `reader.read(&mut buf)?` line of
`count_reader` propagates a read error immediately, discarding the
partially accumulated state. -/
def countReaderE (flags : Flags) : ScanState → List ReadResult → Except String Counts
  | s, [] => Except.ok s.counts
  | _, Except.error e :: _ => Except.error e
  | s, Except.ok chunk :: rest => countReaderE flags (countChunk flags s chunk) rest

/-- A filesystem oracle: maps a path to an open failure (with the OS
error message) or to the sequence of read results of the opened file. -/
abbrev FileSystem := String → Except String (List ReadResult)

/-- Mirrors `count_file`: `File::open(path)?` then `count_reader` on the reader. -/
def count_file (flags : Flags) (fs : FileSystem) (path : String) : Except String Counts :=
  match fs path with
  | Except.error e => Except.error e
  | Except.ok reads => countReaderE flags initState reads

/-- Mirrors `enum FileResult` of `counter.rs`. -/
inductive FileResult where
  | ok (path : String) (counts : Counts)
  | err (path : String) (msg : String)
deriving DecidableEq, Repr

/-- The closure passed to `.map` inside `process_files`: one path's
outcome. -/
def fileOutcome (flags : Flags) (fs : FileSystem) (path : String) : FileResult :=
  match count_file flags fs path with
  | Except.ok counts => FileResult.ok path counts
  | Except.error e => FileResult.err path e

/-- Mirrors `process_files`: rayon's `par_iter().map(..).collect()` over the
path list.  Rayon's indexed parallel collect returns results in input
order, so the functional content is an order-preserving map. -/
def process_files (flags : Flags) (fs : FileSystem) (files : List String) :
    List FileResult :=
  files.map (fileOutcome flags fs)

/-- The path carried by an outcome. -/
def resultPath : FileResult → String
  | FileResult.ok path _ => path
  | FileResult.err path _ => path

/-! ## The rendering layer -/

/-- The accumulator of the first `for r in results` loop of
`print_files_results`: the per-field maxima and the running total. -/
structure RenderAcc where
  maxLines : Nat
  maxWords : Nat
  maxBytes : Nat
  maxChars : Nat
  total : Counts
deriving DecidableEq, Repr

/-- The initial accumulator (`max_* = 0`, total all zero). -/
def renderAccInit : RenderAcc :=
  { maxLines := 0, maxWords := 0, maxBytes := 0, maxChars := 0
    total := { lines := 0, words := 0, bytes := 0, chars := 0 } }

/-- One iteration of the first loop of `print_files_results`: a
`FileResult::Ok` updates each enabled field's maximum and always feeds
the total; an `Err` is skipped. -/
def renderAccStep (flags : Flags) (acc : RenderAcc) (r : FileResult) : RenderAcc :=
  match r with
  | FileResult.err _ _ => acc
  | FileResult.ok _ c =>
    { maxLines := if flags.lines then Nat.max acc.maxLines c.lines else acc.maxLines
      maxWords := if flags.words then Nat.max acc.maxWords c.words else acc.maxWords
      maxBytes := if flags.bytes then Nat.max acc.maxBytes c.bytes else acc.maxBytes
      maxChars := if flags.chars then Nat.max acc.maxChars c.chars else acc.maxChars
      total :=
        { lines := acc.total.lines + c.lines
          words := acc.total.words + c.words
          bytes := acc.total.bytes + c.bytes
          chars := acc.total.chars + c.chars } }

/-- The accumulator after the first loop of `print_files_results`. -/
def renderAcc (flags : Flags) (results : List FileResult) : RenderAcc :=
  results.foldl (renderAccStep flags) renderAccInit

/-- The decimal digit string of a count, `usize::to_string`. -/
def natStr (n : Nat) : String :=
  toString n

/-- Mirrors `max_field.to_string().len().max(MAX_WIDTH)`: the column width of
one field. -/
def fieldWidth (maxVal : Nat) : Nat :=
  Nat.max (natStr maxVal).length MAX_WIDTH

/-- The four column widths `(width_lines, width_words, width_bytes,
width_chars)` computed by `print_files_results`. -/
def renderWidths (flags : Flags) (results : List FileResult) :
    Nat × Nat × Nat × Nat :=
  let acc := renderAcc flags results
  (fieldWidth acc.maxLines, fieldWidth acc.maxWords,
   fieldWidth acc.maxBytes, fieldWidth acc.maxChars)

/-- Left-pad a string with spaces to width `w` (`{:>width$}`). -/
def padLeft (s : String) (w : Nat) : String :=
  String.mk (List.replicate (w - s.length) ' ') ++ s

/-- The `print_field!` macro: when the field is enabled, the value
right-justified to the column width followed by one space; nothing
otherwise. -/
def print_field (enabled : Bool) (v : Nat) (w : Nat) : String :=
  if enabled then padLeft (natStr v) w ++ " " else ""

/-- A structured output line of the multi-file renderer: one per-file
count row, one per-file error row, or the final total row. -/
inductive OutLine where
  | fileLine (path : String) (c : Counts)
  | errLine (path : String) (msg : String)
  | totalLine (c : Counts)
deriving DecidableEq, Repr

/-- The structured output of `print_files_results`: one line per outcome
in input order, then the total line exactly when `results.len() > 1`. -/
def print_files_lines (flags : Flags) (results : List FileResult) : List OutLine :=
  (results.map fun r =>
    match r with
    | FileResult.err path msg => OutLine.errLine path msg
    | FileResult.ok path c => OutLine.fileLine path c) ++
  (if 1 < results.length then [OutLine.totalLine (renderAcc flags results).total] else [])

/-- The text of one output line: count rows print the enabled fields in
the fixed order lines, words, bytes, chars, each right-justified with a
trailing space, then the label (the path, or `total`); an error row is
`rswc: <path>: <msg> `. -/
def formatLine (flags : Flags) (wl ww wb wc : Nat) : OutLine → String
  | OutLine.errLine path msg => "rswc: " ++ path ++ ": " ++ msg ++ " "
  | OutLine.fileLine path c =>
      print_field flags.lines c.lines wl ++ print_field flags.words c.words ww ++
      print_field flags.bytes c.bytes wb ++ print_field flags.chars c.chars wc ++ path
  | OutLine.totalLine c =>
      print_field flags.lines c.lines wl ++ print_field flags.words c.words ww ++
      print_field flags.bytes c.bytes wb ++ print_field flags.chars c.chars wc ++ "total"

/-- Mirrors `print_files_results`: the list of text lines written to the sink
(each `writeln!` ends one line). -/
def print_files_results (flags : Flags) (results : List FileResult) : List String :=
  let w := renderWidths flags results
  (print_files_lines flags results).map (formatLine flags w.1 w.2.1 w.2.2.1 w.2.2.2)

/-- Mirrors `print_stdin_results`: a single line, each enabled field formatted
with a width computed from that count's own digit length, then the
literal label `-`. -/
def print_stdin_results (flags : Flags) (c : Counts) : List String :=
  [print_field flags.lines c.lines (fieldWidth c.lines) ++
   print_field flags.words c.words (fieldWidth c.words) ++
   print_field flags.bytes c.bytes (fieldWidth c.bytes) ++
   print_field flags.chars c.chars (fieldWidth c.chars) ++ "-"]

/-! ## Spec-side definitions

These restate the specification's vocabulary independently of the
implementation, to be compared with it in the theorems below. -/

/-- Field-by-field sum of two count records. -/
def addCounts (a b : Counts) : Counts :=
  { lines := a.lines + b.lines
    words := a.words + b.words
    bytes := a.bytes + b.bytes
    chars := a.chars + b.chars }

/-- The all-zero count record. -/
def zeroCounts : Counts :=
  { lines := 0, words := 0, bytes := 0, chars := 0 }

/-- Field-by-field sum of the counts of all `Ok` outcomes in a list;
`Err` outcomes contribute nothing. -/
def sumSuccess : List FileResult → Counts
  | [] => zeroCounts
  | FileResult.ok _ c :: rest => addCounts c (sumSuccess rest)
  | FileResult.err _ _ :: rest => sumSuccess rest

/-- The largest value of the field selected by `f` among `Ok` outcomes
(`0` when there are none); `Err` outcomes are ignored. -/
def maxSuccess (f : Counts → Nat) : List FileResult → Nat
  | [] => 0
  | FileResult.ok _ c :: rest => Nat.max (f c) (maxSuccess f rest)
  | FileResult.err _ _ :: rest => maxSuccess f rest

/-- A byte that is not counter whitespace, i.e. can belong to a word. -/
def nonWs (b : Nat) : Bool :=
  !isAsciiWhitespace b

/-- Auxiliary length bound for the termination of `splitRuns`. -/
theorem dropWhile_length_le (p : Nat → Bool) (l : List Nat) :
    (l.dropWhile p).length ≤ l.length := by
  induction l with
  | nil => simp
  | cons a t ih =>
    simp only [List.dropWhile]
    split
    · exact Nat.le_succ_of_le ih
    · simp

/-- The list of maximal runs of non-whitespace bytes of a byte sequence:
whitespace is skipped, and each run is a maximal block of consecutive
non-whitespace bytes. -/
def splitRuns : List Nat → List (List Nat)
  | [] => []
  | b :: rest =>
    if isAsciiWhitespace b then splitRuns rest
    else (b :: rest.takeWhile nonWs) :: splitRuns (rest.dropWhile nonWs)
termination_by l => l.length
decreasing_by
  · simp
  · exact Nat.lt_succ_of_le (dropWhile_length_le nonWs rest)

/-- The number of maximal runs of non-whitespace bytes. -/
def maximalRuns (S : List Nat) : Nat :=
  (splitRuns S).length

/-! ## Projection of the scanner onto the line/word components

`scanByte` only ever touches `lines`, `words` and `inWord`; the
projection below lets the chunked fold be compared with a single fold
over the concatenated byte sequence. -/

/-- The (lines, words, inWord) components of a scanner state. -/
def projLW (s : ScanState) : Nat × Nat × Bool :=
  (s.counts.lines, s.counts.words, s.inWord)

/-- The action of `scanByte` on the (lines, words, inWord) components. -/
def stepLW (t : Nat × Nat × Bool) (b : Nat) : Nat × Nat × Bool :=
  let l := if b = 10 then t.1 + 1 else t.1
  if isAsciiWhitespace b then (l, t.2.1, false)
  else if !t.2.2 then (l, t.2.1 + 1, true)
  else (l, t.2.1, t.2.2)

theorem projLW_scanByte (s : ScanState) (b : Nat) :
    projLW (scanByte s b) = stepLW (projLW s) b := by
  simp only [scanByte, stepLW, projLW]
  split_ifs <;> rfl

theorem scanByte_bytes (s : ScanState) (b : Nat) :
    (scanByte s b).counts.bytes = s.counts.bytes := by
  simp only [scanByte]
  split_ifs <;> rfl

theorem scanByte_chars (s : ScanState) (b : Nat) :
    (scanByte s b).counts.chars = s.counts.chars := by
  simp only [scanByte]
  split_ifs <;> rfl

theorem projLW_setChars (s : ScanState) (k : Nat) :
    projLW { s with counts := { s.counts with chars := k } } = projLW s := rfl

theorem projLW_setBytes (s : ScanState) (k : Nat) :
    projLW { s with counts := { s.counts with bytes := k } } = projLW s := rfl

theorem bytes_setChars (s : ScanState) (k : Nat) :
    ({ s with counts := { s.counts with chars := k } } : ScanState).counts.bytes =
      s.counts.bytes := rfl

theorem foldl_scanByte_bytes (l : List Nat) :
    ∀ s : ScanState, (l.foldl scanByte s).counts.bytes = s.counts.bytes := by
  induction l with
  | nil => intro s; rfl
  | cons b t ih => intro s; rw [List.foldl_cons, ih, scanByte_bytes]

theorem projLW_foldl_scanByte (l : List Nat) :
    ∀ s : ScanState, projLW (l.foldl scanByte s) = l.foldl stepLW (projLW s) := by
  induction l with
  | nil => intro s; rfl
  | cons b t ih => intro s; rw [List.foldl_cons, List.foldl_cons, ih, projLW_scanByte]

theorem projLW_countChunk (flags : Flags) (s : ScanState) (chunk : List Nat) :
    projLW (countChunk flags s chunk) = chunk.foldl stepLW (projLW s) := by
  simp only [countChunk]
  by_cases hc : flags.chars
  · rw [if_pos hc, projLW_setChars, projLW_foldl_scanByte, projLW_setBytes]
  · rw [if_neg hc, projLW_foldl_scanByte, projLW_setBytes]

theorem bytes_countChunk (flags : Flags) (s : ScanState) (chunk : List Nat) :
    (countChunk flags s chunk).counts.bytes = s.counts.bytes + chunk.length := by
  simp only [countChunk]
  by_cases hc : flags.chars
  · rw [if_pos hc, bytes_setChars, foldl_scanByte_bytes]
  · rw [if_neg hc, foldl_scanByte_bytes]

theorem projLW_foldl_countChunk (flags : Flags) (chunks : List (List Nat)) :
    ∀ s : ScanState,
      projLW (chunks.foldl (countChunk flags) s) =
        chunks.flatten.foldl stepLW (projLW s) := by
  induction chunks with
  | nil => intro s; rfl
  | cons c cs ih =>
    intro s
    rw [List.foldl_cons, ih, List.flatten_cons, List.foldl_append, projLW_countChunk]

theorem bytes_foldl_countChunk (flags : Flags) (chunks : List (List Nat)) :
    ∀ s : ScanState,
      (chunks.foldl (countChunk flags) s).counts.bytes =
        s.counts.bytes + chunks.flatten.length := by
  induction chunks with
  | nil => intro s; simp
  | cons c cs ih =>
    intro s
    rw [List.foldl_cons, ih, bytes_countChunk, List.flatten_cons, List.length_append,
      Nat.add_assoc]

/-! ## Word runs -/

theorem splitRuns_cons_ws {b : Nat} (rest : List Nat) (hb : isAsciiWhitespace b = true) :
    splitRuns (b :: rest) = splitRuns rest := by
  rw [splitRuns, if_pos hb]

theorem splitRuns_cons_nonws {b : Nat} (rest : List Nat) (hb : isAsciiWhitespace b = false) :
    splitRuns (b :: rest) =
      (b :: rest.takeWhile nonWs) :: splitRuns (rest.dropWhile nonWs) := by
  rw [splitRuns, if_neg]
  simp [hb]

theorem stepLW_ws {b : Nat} (t : Nat × Nat × Bool) (hb : isAsciiWhitespace b = true) :
    stepLW t b = ((if b = 10 then t.1 + 1 else t.1), t.2.1, false) := by
  rw [stepLW, if_pos hb]

theorem stepLW_nonws_out {b : Nat} (l w : Nat) (hb : isAsciiWhitespace b = false) :
    stepLW (l, w, false) b = ((if b = 10 then l + 1 else l), w + 1, true) := by
  rw [stepLW]
  simp [hb]

theorem stepLW_nonws_in {b : Nat} (l w : Nat) (hb : isAsciiWhitespace b = false) :
    stepLW (l, w, true) b = ((if b = 10 then l + 1 else l), w, true) := by
  rw [stepLW]
  simp [hb]

/-- The word component of the line/word fold counts maximal runs: from
outside a word the remaining runs are those of the remaining bytes; from
inside a word the current run was already counted, so only the runs after
the current run's end contribute. -/
theorem foldl_stepLW_words (S : List Nat) :
    ∀ l w : Nat,
      (S.foldl stepLW (l, w, false)).2.1 = w + (splitRuns S).length ∧
      (S.foldl stepLW (l, w, true)).2.1 = w + (splitRuns (S.dropWhile nonWs)).length := by
  induction S with
  | nil =>
    intro l w
    constructor <;> simp [splitRuns]
  | cons b rest ih =>
    intro l w
    by_cases hb : isAsciiWhitespace b
    · have hdrop : (b :: rest).dropWhile nonWs = b :: rest := by
        rw [List.dropWhile_cons]
        simp [nonWs, hb]
      constructor
      · rw [List.foldl_cons, stepLW_ws _ hb, (ih _ w).1, splitRuns_cons_ws rest hb]
      · rw [List.foldl_cons, stepLW_ws _ hb, (ih _ w).1, hdrop, splitRuns_cons_ws rest hb]
    · have hb' : isAsciiWhitespace b = false := by
        simpa using hb
      have hdrop : (b :: rest).dropWhile nonWs = rest.dropWhile nonWs := by
        rw [List.dropWhile_cons]
        simp [nonWs, hb']
      constructor
      · rw [List.foldl_cons, stepLW_nonws_out l w hb', (ih _ (w + 1)).2,
          splitRuns_cons_nonws rest hb', List.length_cons]
        omega
      · rw [List.foldl_cons, stepLW_nonws_in l w hb', (ih _ w).2, hdrop]

/-! ## Renderer fold lemmas -/

theorem addCounts_assoc (a b c : Counts) :
    addCounts (addCounts a b) c = addCounts a (addCounts b c) := by
  simp [addCounts, Nat.add_assoc]

theorem addCounts_zero_left (a : Counts) : addCounts zeroCounts a = a := by
  simp [addCounts, zeroCounts]

theorem renderAccStep_err (flags : Flags) (a : RenderAcc) (p m : String) :
    renderAccStep flags a (FileResult.err p m) = a := rfl

theorem renderAccStep_ok_total (flags : Flags) (a : RenderAcc) (p : String) (c : Counts) :
    (renderAccStep flags a (FileResult.ok p c)).total = addCounts a.total c := rfl

theorem foldl_renderAccStep_total (flags : Flags) (rs : List FileResult) :
    ∀ a : RenderAcc,
      (rs.foldl (renderAccStep flags) a).total = addCounts a.total (sumSuccess rs) := by
  induction rs with
  | nil =>
    intro a
    simp [sumSuccess, addCounts, zeroCounts]
  | cons r rest ih =>
    intro a
    cases r with
    | err p m =>
      rw [List.foldl_cons, renderAccStep_err, ih, sumSuccess]
    | ok p c =>
      rw [List.foldl_cons, ih, renderAccStep_ok_total, addCounts_assoc, sumSuccess]

/-- The per-field maximum computed by the first loop of
`print_files_results`, phrased generically in the accessor `g` of the
accumulator field, the accessor `f` of the count field and the flag
`fl` guarding the update. -/
theorem foldl_renderAccStep_maxField (flags : Flags) (fl : Bool) (g : RenderAcc → Nat)
    (f : Counts → Nat)
    (hstepOk : ∀ (a : RenderAcc) (p : String) (c : Counts),
      g (renderAccStep flags a (FileResult.ok p c)) = if fl then Nat.max (g a) (f c) else g a)
    (hstepErr : ∀ (a : RenderAcc) (p m : String),
      g (renderAccStep flags a (FileResult.err p m)) = g a)
    (rs : List FileResult) :
    ∀ a : RenderAcc,
      g (rs.foldl (renderAccStep flags) a) =
        if fl then Nat.max (g a) (maxSuccess f rs) else g a := by
  induction rs with
  | nil =>
    intro a
    by_cases hfl : fl <;> simp [maxSuccess, hfl]
  | cons r rest ih =>
    intro a
    cases r with
    | err p m =>
      rw [List.foldl_cons, ih, hstepErr, maxSuccess]
    | ok p c =>
      rw [List.foldl_cons, ih, hstepOk, maxSuccess]
      by_cases hfl : fl <;> simp [hfl, Nat.max_assoc]

/-! ## Claim theorems -/

/-- C4: feeding a byte sequence to `count_reader` in any sequence of
chunks produces the same `lines`, `words` and `bytes` fields as feeding
the concatenation as a single chunk; in particular a word spanning a
chunk boundary is counted exactly once, because the `in_word` state is
carried across chunk boundaries. -/
theorem count_reader_chunking_invariant (flags : Flags) (chunks : List (List Nat)) :
    (count_reader flags chunks).lines = (count_reader flags [chunks.flatten]).lines ∧
    (count_reader flags chunks).words = (count_reader flags [chunks.flatten]).words ∧
    (count_reader flags chunks).bytes = (count_reader flags [chunks.flatten]).bytes := by
  have hL := projLW_foldl_countChunk flags chunks initState
  have hR := projLW_foldl_countChunk flags [chunks.flatten] initState
  have hflat : ([chunks.flatten] : List (List Nat)).flatten = chunks.flatten := by simp
  rw [hflat] at hR
  have h : projLW (chunks.foldl (countChunk flags) initState) =
      projLW (([chunks.flatten] : List (List Nat)).foldl (countChunk flags) initState) := by
    rw [hL, hR]
  refine ⟨?_, ?_, ?_⟩
  · exact congrArg (fun t => t.1) h
  · exact congrArg (fun t => t.2.1) h
  · show (chunks.foldl (countChunk flags) initState).counts.bytes =
      (([chunks.flatten] : List (List Nat)).foldl (countChunk flags) initState).counts.bytes
    rw [bytes_foldl_countChunk, bytes_foldl_countChunk, hflat]

/-- C5: the `words` field equals the number of maximal runs of
non-whitespace bytes of the input; a final run not terminated by
trailing whitespace is counted because the equality holds for every
input, including inputs ending inside a run. -/
theorem count_reader_words_eq_maximalRuns (flags : Flags) (S : List Nat) :
    (count_reader flags [S]).words = maximalRuns S := by
  have h := congrArg (fun t => t.2.1) (projLW_countChunk flags initState S)
  have hw := (foldl_stepLW_words S 0 0).1
  calc (count_reader flags [S]).words
      = (S.foldl stepLW (0, 0, false)).2.1 := h
    _ = 0 + (splitRuns S).length := hw
    _ = maximalRuns S := by rw [Nat.zero_add, maximalRuns]

/-- C1: a total row appearing in the multi-file renderer's output
carries exactly the field-by-field sum of the counts of all `Ok`
outcomes; `Err` outcomes contribute nothing to any field. -/
theorem total_row_counts (flags : Flags) (results : List FileResult) (c : Counts) :
    OutLine.totalLine c ∈ print_files_lines flags results → c = sumSuccess results := by
  intro hmem
  rw [print_files_lines] at hmem
  rcases List.mem_append.mp hmem with hmap | hif
  · rcases List.mem_map.mp hmap with ⟨r, _, hr⟩
    cases r <;> simp at hr
  · by_cases hlen : 1 < results.length
    · rw [if_pos hlen] at hif
      have hc : c = (renderAcc flags results).total := by
        simpa using hif
      rw [hc, renderAcc, foldl_renderAccStep_total]
      show addCounts renderAccInit.total (sumSuccess results) = sumSuccess results
      show addCounts zeroCounts (sumSuccess results) = sumSuccess results
      exact addCounts_zero_left _
    · rw [if_neg hlen] at hif
      simp at hif

/-- Witness for C1 at the two-file example of the specification:
counts (5, 20, 120) and (3, 10, 80) sum to the total (8, 30, 200). -/
theorem total_row_counts_witness :
    (⟨8, 30, 200, 0⟩ : Counts) =
      sumSuccess [FileResult.ok "a.txt" ⟨5, 20, 120, 0⟩,
                  FileResult.ok "b.txt" ⟨3, 10, 80, 0⟩] :=
  total_row_counts ⟨true, true, true, false⟩
    [FileResult.ok "a.txt" ⟨5, 20, 120, 0⟩, FileResult.ok "b.txt" ⟨3, 10, 80, 0⟩]
    ⟨8, 30, 200, 0⟩ (by decide)

/-- C2 fails on the code (the spec itself flags this as a correctness
gap): a multi-byte scalar split across two reads is decoded per chunk,
each chunk is invalid UTF-8 in isolation, and
`from_utf8(..).unwrap_or_default()` maps it to the empty string, so the
scalar is not counted.  The bytes `C3 A9` (the character é) delivered as
two reads give `chars = 0`, while delivered as one read (the whole valid
sequence, one scalar value) they give `chars = 1`. -/
theorem chars_chunk_split_undercount :
    (count_reader ⟨true, true, true, true⟩ [[195], [169]]).chars = 0 ∧
    (count_reader ⟨true, true, true, true⟩ [[195, 169]]).chars = 1 := by
  constructor <;> rfl

/-- C3 counterexample: the vertical tab 0x0B is among the six bytes the
claim lists, yet the scanner does not clear the `in_word` state on it
(Rust's `u8::is_ascii_whitespace` excludes the vertical tab), and the
input `a\x0Bb` therefore counts one word, not two. -/
theorem vertical_tab_not_cleared :
    (11 ∈ [32, 9, 10, 13, 11, 12]) ∧
    (scanByte { counts := zeroCounts, inWord := true } 11).inWord = true ∧
    (count_reader ⟨true, true, true, false⟩ [[97, 11, 98]]).words = 1 := by
  refine ⟨by decide, rfl, rfl⟩

/-- C3 amended: the whitespace classification clearing the `in_word`
state is exactly the five bytes space, tab, newline, form feed and
carriage return; the vertical tab is not whitespace for the counter. -/
theorem isAsciiWhitespace_iff (b : Nat) :
    isAsciiWhitespace b = true ↔ (b = 32 ∨ b = 9 ∨ b = 10 ∨ b = 12 ∨ b = 13) := by
  simp [isAsciiWhitespace]
  tauto

theorem scanByte_clears_inWord_iff (s : ScanState) (b : Nat) :
    (scanByte s b).inWord = false ↔
      (b = 32 ∨ b = 9 ∨ b = 10 ∨ b = 12 ∨ b = 13) := by
  have hcls : (scanByte s b).inWord = !isAsciiWhitespace b := by
    rw [scanByte]
    split_ifs <;> simp_all
  rw [hcls, ← isAsciiWhitespace_iff]
  cases isAsciiWhitespace b <;> simp

theorem resultPath_fileOutcome (flags : Flags) (fs : FileSystem) (p : String) :
    resultPath (fileOutcome flags fs p) = p := by
  rw [fileOutcome]
  cases count_file flags fs p <;> rfl

/-- C6: the file processor returns exactly one outcome per input path,
and the i-th outcome carries the i-th input path.  Rayon's indexed
`par_iter().map().collect()` gathers results in input order, so its
functional content is the order-preserving map embedded in
`process_files`; completion order of the parallel workers has no
observable effect on the collected list. -/
theorem process_files_order (flags : Flags) (fs : FileSystem) (files : List String) :
    (process_files flags fs files).length = files.length ∧
    ∀ i : Nat,
      ((process_files flags fs files)[i]?).map resultPath = files[i]? := by
  constructor
  · simp [process_files]
  · intro i
    simp only [process_files, List.getElem?_map]
    cases h : files[i]? with
    | none => rfl
    | some p => simp [resultPath_fileOutcome]

theorem countReaderE_error (flags : Flags) (e : String) (post : List ReadResult) :
    ∀ (pre : List ReadResult) (s : ScanState),
      (∀ c ∈ pre, ∃ chunk, c = Except.ok chunk) →
      countReaderE flags s (pre ++ Except.error e :: post) = Except.error e := by
  intro pre
  induction pre with
  | nil => intro s _; rfl
  | cons r rest ih =>
    intro s hok
    rcases hok r (List.mem_cons_self r rest) with ⟨chunk, rfl⟩
    rw [List.cons_append]
    show countReaderE flags (countChunk flags s chunk) (rest ++ Except.error e :: post) =
      Except.error e
    exact ih (countChunk flags s chunk) (fun c hc => hok c (List.mem_cons_of_mem _ hc))

/-- C7: a path whose open fails yields a `Failure` outcome carrying that
path and the OS error message; a mid-read failure (an error after any
number of successful reads) likewise yields a `Failure` with the error
message and no partially accumulated counts; and each path's outcome
depends only on the filesystem's behavior at that path, so a failure
leaves every other path's outcome unchanged. -/
theorem per_path_failure_handling (flags : Flags) (fs : FileSystem) (path : String)
    (pre post : List ReadResult) (e : String) :
    (fs path = Except.error e → fileOutcome flags fs path = FileResult.err path e) ∧
    ((∀ c ∈ pre, ∃ chunk, c = Except.ok chunk) →
      fs path = Except.ok (pre ++ Except.error e :: post) →
      fileOutcome flags fs path = FileResult.err path e) ∧
    (∀ fs2 : FileSystem, fs2 path = fs path →
      fileOutcome flags fs2 path = fileOutcome flags fs path) := by
  refine ⟨?_, ?_, ?_⟩
  · intro h
    simp [fileOutcome, count_file, h]
  · intro hok h
    have hcr := countReaderE_error flags e post pre initState hok
    simp [fileOutcome, count_file, h, hcr]
  · intro fs2 h
    simp [fileOutcome, count_file, h]

/-- Witness for C7: a filesystem on which every open fails with the OS
message of the repository's own test produces the matching `Failure`. -/
theorem per_path_failure_witness :
    fileOutcome ⟨true, true, true, false⟩
      (fun _ => Except.error "No such file or directory (os error 2)") "testdata/test.t" =
      FileResult.err "testdata/test.t" "No such file or directory (os error 2)" :=
  (per_path_failure_handling ⟨true, true, true, false⟩
    (fun _ => Except.error "No such file or directory (os error 2)") "testdata/test.t"
    [] [] "No such file or directory (os error 2)").1 rfl

/-- C8: the multi-file renderer emits a total row exactly when the
outcome list has more than one element, whatever the mix of successes
and failures, and the stdin renderer always writes exactly one line, so
it never emits a total row. -/
theorem total_row_iff_many (flags : Flags) (results : List FileResult) (c0 : Counts) :
    ((∃ c, OutLine.totalLine c ∈ print_files_lines flags results) ↔ 1 < results.length) ∧
    (print_stdin_results flags c0).length = 1 := by
  constructor
  · constructor
    · rintro ⟨c, hmem⟩
      rw [print_files_lines] at hmem
      rcases List.mem_append.mp hmem with hmap | hif
      · rcases List.mem_map.mp hmap with ⟨r, _, hr⟩
        cases r <;> simp at hr
      · by_cases hlen : 1 < results.length
        · exact hlen
        · rw [if_neg hlen] at hif
          simp at hif
    · intro hlen
      refine ⟨(renderAcc flags results).total, ?_⟩
      rw [print_files_lines, if_pos hlen]
      simp
  · rfl

theorem renderAcc_maxLines (flags : Flags) (results : List FileResult)
    (h : flags.lines = true) :
    (renderAcc flags results).maxLines = maxSuccess (fun c => c.lines) results := by
  have hmax := foldl_renderAccStep_maxField flags flags.lines RenderAcc.maxLines
    (fun c => c.lines) (fun _ _ _ => rfl) (fun _ _ _ => rfl) results renderAccInit
  simp [h, renderAccInit] at hmax
  rw [renderAcc]
  simp only [renderAccInit]
  exact hmax

theorem renderAcc_maxWords (flags : Flags) (results : List FileResult)
    (h : flags.words = true) :
    (renderAcc flags results).maxWords = maxSuccess (fun c => c.words) results := by
  have hmax := foldl_renderAccStep_maxField flags flags.words RenderAcc.maxWords
    (fun c => c.words) (fun _ _ _ => rfl) (fun _ _ _ => rfl) results renderAccInit
  simp [h, renderAccInit] at hmax
  rw [renderAcc]
  simp only [renderAccInit]
  exact hmax

theorem renderAcc_maxBytes (flags : Flags) (results : List FileResult)
    (h : flags.bytes = true) :
    (renderAcc flags results).maxBytes = maxSuccess (fun c => c.bytes) results := by
  have hmax := foldl_renderAccStep_maxField flags flags.bytes RenderAcc.maxBytes
    (fun c => c.bytes) (fun _ _ _ => rfl) (fun _ _ _ => rfl) results renderAccInit
  simp [h, renderAccInit] at hmax
  rw [renderAcc]
  simp only [renderAccInit]
  exact hmax

theorem renderAcc_maxChars (flags : Flags) (results : List FileResult)
    (h : flags.chars = true) :
    (renderAcc flags results).maxChars = maxSuccess (fun c => c.chars) results := by
  have hmax := foldl_renderAccStep_maxField flags flags.chars RenderAcc.maxChars
    (fun c => c.chars) (fun _ _ _ => rfl) (fun _ _ _ => rfl) results renderAccInit
  simp [h, renderAccInit] at hmax
  rw [renderAcc]
  simp only [renderAccInit]
  exact hmax

/-- C9: for each enabled field, the column width of the multi-file
renderer equals the maximum of the decimal digit length of that field's
largest value among `Ok` outcomes and the fixed minimum width
`MAX_WIDTH = 7`; `Err` outcomes are not considered in the maxima, and a
disabled field never feeds them. -/
theorem render_widths_spec (flags : Flags) (results : List FileResult) :
    (flags.lines = true →
      (renderWidths flags results).1 =
        Nat.max (natStr (maxSuccess (fun c => c.lines) results)).length MAX_WIDTH) ∧
    (flags.words = true →
      (renderWidths flags results).2.1 =
        Nat.max (natStr (maxSuccess (fun c => c.words) results)).length MAX_WIDTH) ∧
    (flags.bytes = true →
      (renderWidths flags results).2.2.1 =
        Nat.max (natStr (maxSuccess (fun c => c.bytes) results)).length MAX_WIDTH) ∧
    (flags.chars = true →
      (renderWidths flags results).2.2.2 =
        Nat.max (natStr (maxSuccess (fun c => c.chars) results)).length MAX_WIDTH) := by
  refine ⟨fun h => ?_, fun h => ?_, fun h => ?_, fun h => ?_⟩
  · show fieldWidth (renderAcc flags results).maxLines = _
    rw [renderAcc_maxLines flags results h, fieldWidth]
  · show fieldWidth (renderAcc flags results).maxWords = _
    rw [renderAcc_maxWords flags results h, fieldWidth]
  · show fieldWidth (renderAcc flags results).maxBytes = _
    rw [renderAcc_maxBytes flags results h, fieldWidth]
  · show fieldWidth (renderAcc flags results).maxChars = _
    rw [renderAcc_maxChars flags results h, fieldWidth]

/-- Witness for C9 on a mixed success/failure list with all fields
enabled. -/
theorem render_widths_witness :
    (renderWidths ⟨true, true, true, true⟩
      [FileResult.ok "a.txt" ⟨5, 20, 120, 9⟩, FileResult.err "b.txt" "denied"]).1 =
      Nat.max (natStr (maxSuccess (fun c => c.lines)
        [FileResult.ok "a.txt" ⟨5, 20, 120, 9⟩, FileResult.err "b.txt" "denied"])).length
        MAX_WIDTH :=
  (render_widths_spec ⟨true, true, true, true⟩
    [FileResult.ok "a.txt" ⟨5, 20, 120, 9⟩, FileResult.err "b.txt" "denied"]).1 rfl

/-- C10: the empty path list maps to the empty outcome list, and the
multi-file renderer given no outcomes writes nothing: no per-file rows,
no error lines and no total row. -/
theorem empty_inputs_write_nothing (flags : Flags) (fs : FileSystem) :
    process_files flags fs [] = [] ∧ print_files_results flags [] = [] := by
  exact ⟨rfl, rfl⟩

end Rswc
